import Mathlib

/-
Shallow embedding of the HaploMapper frequency-table generator
(src/step2_frequencyTable/new_haplogroup_frequency_tables.py, the pipeline
described by the specification, plus the pieces of the legacy
src/step2_frequencyTable/haplogroup_frequency_tables.py that differ).

Records model one input row after pandas coercion: string columns are kept
as strings and the numeric coercions (pd.to_numeric with errors="coerce")
are modelled by Option values, none standing for NaN.
-/

namespace HaploTables

/-- The ASCII whitespace characters removed by Python str.strip(). -/
def isPySpace (c : Char) : Bool :=
  c == ' ' || c == '\t' || c == '\n' || c == '\r' || c == '\x0b' || c == '\x0c'

/-- Python str.strip() on a character list: drop whitespace from both ends. -/
def pyStripList (l : List Char) : List Char :=
  ((l.dropWhile isPySpace).reverse.dropWhile isPySpace).reverse

/-- Python str.strip() on a string. -/
def pyStrip (s : String) : String :=
  ⟨pyStripList s.data⟩

/-- The literal placeholder tokens of invalid_patterns in
new_haplogroup_frequency_tables.py line 178. -/
def invalidTokens : List String :=
  ["", "..", "n/a", "N/A", "Neanderthal"]

/-- The literal placeholder tokens of invalid_patterns in the legacy
haplogroup_frequency_tables.py line 131 (no "Neanderthal"). -/
def invalidTokensOld : List String :=
  ["", "..", "n/a", "N/A"]

/-- is_valid_haplo of new_haplogroup_frequency_tables.py lines 186-191:
after stripping, length exactly 1, or length at least 2 with the second
character a decimal digit. -/
def isValidHaplo (s : String) : Bool :=
  match pyStripList s.data with
  | [_] => true
  | _ :: c2 :: _ => c2.isDigit
  | [] => false

/-- A record survives both filters of the new script (lines 179 and 193):
its stripped code is none of the placeholder tokens and is_valid_haplo holds. -/
def validCode (s : String) : Bool :=
  !(invalidTokens.contains (pyStrip s)) && isValidHaplo s

/-- The only filter of the legacy script (line 132): the stripped code is
none of the four placeholder tokens. -/
def validCodeOld (s : String) : Bool :=
  !(invalidTokensOld.contains (pyStrip s))

/-- haplo_basal (line 200 of the new script, line 135 of the legacy one):
first character of the RAW (unstripped) code, upper-cased. -/
def haploBasalChar (s : String) : Char :=
  (s.data.headD ' ').toUpper

/-- parse_subclade (lines 202-211): strip, and if the second character is a
digit return the first two characters upper-cased, else none. -/
def parseSubclade (s : String) : Option String :=
  match pyStripList s.data with
  | c1 :: c2 :: _ => if c2.isDigit then some ⟨[c1.toUpper, c2.toUpper]⟩ else none
  | _ => none

/-- One input row after the pandas numeric coercions of main (lines 96,
110-111): age, latitude and longitude are none when non-numeric. -/
structure Record where
  country : String
  age : Option ℚ
  lat : Option ℚ
  lon : Option ℚ
  haplo : String

/-- The grouping key (Ancient pop name, Political Entity, binned_age). -/
abbrev GroupKey := String × String × String

/-- np.floor(age / 1000) of main line 103, written on the numerator and
denominator of the rational so that it evaluates by machine integer
division; the theorem binFloor_eq below proves it is the floor of a / 1000. -/
def binFloor (a : ℚ) : ℤ :=
  a.num.fdiv (1000 * (a.den : ℤ))

/-- binned_age of main (lines 103-105): for a numeric age the 1000-year bin
string; for a coerced-NaN age the pandas Int64 NA prints as the literal
string NA in angle brackets on both sides of the dash. -/
def binnedAge (r : Record) : String :=
  match r.age with
  | some a =>
      toString (1000 * binFloor a) ++ "-" ++ toString (1000 * binFloor a + 1000) ++ " BP"
  | none => "<NA>-<NA> BP"

/-- Ancient pop name (line 107): Political Entity, a space, and binned_age. -/
def popName (r : Record) : String :=
  r.country ++ " " ++ binnedAge r

/-- The full grouping key of group_keys (line 122). -/
def key (r : Record) : GroupKey :=
  (popName r, r.country, binnedAge r)

/-- df_valid: the records surviving both haplogroup filters. -/
def validRecords (rs : List Record) : List Record :=
  rs.filter (fun r => validCode r.haplo)

/-- The records of df_valid that fall in one group. -/
def validInKey (rs : List Record) (k : GroupKey) : List Record :=
  (validRecords rs).filter (fun r => decide (key r = k))

/-- The group keys appearing in the output table (the index of pivot_basal):
keys of df_valid, one row each. -/
def groupKeys (rs : List Record) : List GroupKey :=
  ((validRecords rs).map key).dedup

/-- Sorted list of the distinct values of a list (pandas pivot columns). -/
def sortedD {α : Type} [LinearOrder α] (l : List α) : List α :=
  List.insertionSort (· ≤ ·) l.dedup

/-- The basal haplogroup columns: distinct basal letters of df_valid, in
ascending order. -/
def basalLetters (rs : List Record) : List Char :=
  sortedD ((validRecords rs).map (fun r => haploBasalChar r.haplo))

/-- subclade_cols (line 297): distinct subclade codes of df_valid, sorted. -/
def subCols (rs : List Record) : List String :=
  sortedD ((validRecords rs).filterMap (fun r => parseSubclade r.haplo))

/-- Count_basal pivoted (lines 217-229): number of valid records of group k
whose basal letter is b. -/
def basalCount (rs : List Record) (k : GroupKey) (b : Char) : ℕ :=
  ((validInKey rs k).filter (fun r => decide (haploBasalChar r.haplo = b))).length

/-- Total_count (line 235): the row sum of the raw basal pivot table. -/
def rawTotal (rs : List Record) (k : GroupKey) : ℕ :=
  ((basalLetters rs).map (fun b => basalCount rs k b)).sum

/-- The number of valid (non-excluded) records mapped to group k. -/
def numValidIn (rs : List Record) (k : GroupKey) : ℕ :=
  (validInKey rs k).length

/-- The valid records of group k carrying subclade sc. -/
def subRecs (rs : List Record) (k : GroupKey) (sc : String) : List Record :=
  (validInKey rs k).filter (fun r => decide (parseSubclade r.haplo = some sc))

/-- The number of valid records of group k whose subclade is sc (the
specification's subclade_count for the pair of k and sc). -/
def specSubcladeCount (rs : List Record) (k : GroupKey) (sc : String) : ℕ :=
  (subRecs rs k sc).length

/-- The distinct basal letters under which subclade sc of group k was
counted by grouped_sub (lines 266-271). -/
def subBasals (rs : List Record) (k : GroupKey) (sc : String) : List Char :=
  ((subRecs rs k sc).map (fun r => haploBasalChar r.haplo)).dedup

/-- Count_sub of grouped_sub for (k, b, sc). -/
def groupedSubCount (rs : List Record) (k : GroupKey) (b : Char) (sc : String) : ℕ :=
  ((subRecs rs k sc).filter (fun r => decide (haploBasalChar r.haplo = b))).length

/-- The cell of pivot_sub (lines 274-279) at row k, column sc, as it stands
in merged_df after the left merge and the fillna(0) of line 308: pivot_table
aggregates the Count_sub rows over the remaining haplo_basal dimension with
its default mean aggregation, and a missing combination becomes 0. -/
def pivotSubVal (rs : List Record) (k : GroupKey) (sc : String) : ℚ :=
  let bs := subBasals rs k sc
  if bs.isEmpty then 0
  else ((bs.map (fun b => (groupedSubCount rs k b sc : ℚ))).sum) / (bs.length : ℚ)

/-- parent_letter (line 307): first character of the subclade column name,
upper-cased. -/
def parentOf (sc : String) : Char :=
  (sc.data.headD ' ').toUpper

/-- The subclade percentage written by lines 304-316: pivoted subclade value
over the parent basal's raw count in the same group, times 100; zero when
the parent count is zero. -/
def subPct (rs : List Record) (k : GroupKey) (sc : String) : ℚ :=
  let p := basalCount rs k (parentOf sc)
  if 0 < p then pivotSubVal rs k sc / (p : ℚ) * 100 else 0

/-- The basal percentage written by lines 244-251: raw basal count over the
group's total, times 100; zero when the total is zero. -/
def basalPct (rs : List Record) (k : GroupKey) (b : Char) : ℚ :=
  if 0 < rawTotal rs k then (basalCount rs k b : ℚ) / (rawTotal rs k : ℚ) * 100 else 0

/-- The zero-total warning of lines 241-242: true when some output row has a
total count of zero. -/
def warnZeroTotal (rs : List Record) : Bool :=
  (groupKeys rs).any (fun k => rawTotal rs k == 0)

/-- The recalculated Total of lines 296-302: Total_count plus the row sum of
the (still raw) subclade columns of merged_df. -/
def outputTotalQ (rs : List Record) (k : GroupKey) : ℚ :=
  (rawTotal rs k : ℚ) + ((subCols rs).map (fun sc => pivotSubVal rs k sc)).sum

/-- numpy astype(int): truncation toward zero. -/
def pyTrunc (q : ℚ) : ℤ :=
  if 0 ≤ q then ⌊q⌋ else -⌊-q⌋

/-- The integer printed in the Total column (line 384). -/
def displayedTotal (rs : List Record) (k : GroupKey) : ℤ :=
  pyTrunc (outputTotalQ rs k)

/-- The sum of the output subclade percentages whose parent letter is b, for
group k (the quantity of the spec's subclade-sum property). -/
def sumSubPct (rs : List Record) (k : GroupKey) (b : Char) : ℚ :=
  (((subCols rs).filter (fun sc => decide (parentOf sc = b))).map
    (fun sc => subPct rs k sc)).sum

/-- Latitude values entering the group mean of line 323: valid records of
the group whose latitude is numeric. -/
def latVals (rs : List Record) (k : GroupKey) : List ℚ :=
  (validInKey rs k).filterMap (fun r => r.lat)

/-- Longitude values entering the group mean of line 323. -/
def lonVals (rs : List Record) (k : GroupKey) : List ℚ :=
  (validInKey rs k).filterMap (fun r => r.lon)

/-- Age values entering the group mean of line 323. -/
def ageVals (rs : List Record) (k : GroupKey) : List ℚ :=
  (validInKey rs k).filterMap (fun r => r.age)

/-- pandas mean of a value list: none (NaN) when empty, else the arithmetic
mean; NaN entries were already dropped by filterMap. -/
def meanOf (l : List ℚ) : Option ℚ :=
  if l.isEmpty then none else some (l.sum / (l.length : ℚ))

/-- The Lat cell of group k in the new script (groupby on df_valid). -/
def latMean (rs : List Record) (k : GroupKey) : Option ℚ :=
  meanOf (latVals rs k)

/-- The Long cell of group k in the new script. -/
def lonMean (rs : List Record) (k : GroupKey) : Option ℚ :=
  meanOf (lonVals rs k)

/-- The mean age of group k in the new script. -/
def ageMean (rs : List Record) (k : GroupKey) : Option ℚ :=
  meanOf (ageVals rs k)

/-- round-half-even of a rational, modelling Python float formatting. -/
def roundHalfEven (q : ℚ) : ℤ :=
  if q - (⌊q⌋ : ℚ) < 1 / 2 then ⌊q⌋
  else if (1 : ℚ) / 2 < q - (⌊q⌋ : ℚ) then ⌊q⌋ + 1
  else if ⌊q⌋ % 2 = 0 then ⌊q⌋ else ⌊q⌋ + 1

/-- Fixed two-decimal rendering of a rational, modelling the format spec
.2f applied at line 390. -/
def fmt2 (q : ℚ) : String :=
  let n := roundHalfEven (q * 100)
  let a := n.natAbs
  (if n < 0 then "-" else "") ++ toString (a / 100) ++ "." ++
    (if a % 100 < 10 then "0" else "") ++ toString (a % 100)

/-- A rendered percentage cell (line 390): two decimals then a percent sign. -/
def fmtPct (q : ℚ) : String :=
  fmt2 q ++ "%"

/-- The rendered cell of haplogroup column c in the row of group k
(line 390): the percentage value is always numeric at this point, so the
notna branch always fires and the cell is never the empty string. -/
def haploCell (rs : List Record) (k : GroupKey) (c : String) : String :=
  match c.data with
  | [b] => fmtPct (basalPct rs k b)
  | _ :: _ :: _ => fmtPct (subPct rs k c)
  | [] => ""

/-- Python startswith for a single-character pattern: the first character
of sc is b. -/
def headIs (sc : String) (b : Char) : Bool :=
  sc.data.head? == some b

/-- The metadata columns of the output (line 360). -/
def baseCols : List String :=
  ["Ancient pop name", "Country", "Age", "Lat", "Long"]

/-- The haplogroup part of the final column order (lines 362-366): each
basal letter in ascending order, immediately followed by its own subclade
columns in ascending order. -/
def haploColsOrder (letters : List Char) (subs : List String) : List String :=
  letters.flatMap (fun b => String.singleton b :: subs.filter (fun sc => headIs sc b))

/-- The final output column order (lines 359-370): metadata, haplogroup
columns, then Total.  All constructed columns exist in merged_df, so the
membership filter of line 370 keeps every one of them. -/
def finalCols (rs : List Record) : List String :=
  baseCols ++ haploColsOrder (basalLetters rs) (subCols rs) ++ ["Total"]

/-- Legacy script, df_valid (line 132): only the token filter. -/
def validRecordsOld (rs : List Record) : List Record :=
  rs.filter (fun r => validCodeOld r.haplo)

/-- Legacy script: valid records of one group. -/
def validInKeyOld (rs : List Record) (k : GroupKey) : List Record :=
  (validRecordsOld rs).filter (fun r => decide (key r = k))

/-- Legacy script: number of counted records of one group. -/
def numValidInOld (rs : List Record) (k : GroupKey) : ℕ :=
  (validInKeyOld rs k).length

/-- Legacy script: basal pivot columns. -/
def basalLettersOld (rs : List Record) : List Char :=
  sortedD ((validRecordsOld rs).map (fun r => haploBasalChar r.haplo))

/-- Legacy script: raw basal count of (k, b) (lines 138-146). -/
def basalCountOld (rs : List Record) (k : GroupKey) (b : Char) : ℕ :=
  ((validInKeyOld rs k).filter (fun r => decide (haploBasalChar r.haplo = b))).length

/-- Legacy script: the Total column (line 149), the basal row sum. -/
def rawTotalOld (rs : List Record) (k : GroupKey) : ℕ :=
  ((basalLettersOld rs).map (fun b => basalCountOld rs k b)).sum

/-- Legacy script, line 160: ALL rows of the group key (the unfiltered df)
feed the coordinate means, not only df_valid. -/
def allInKey (rs : List Record) (k : GroupKey) : List Record :=
  rs.filter (fun r => decide (key r = k))

/-- Legacy script: latitude values entering the group mean. -/
def latValsOld (rs : List Record) (k : GroupKey) : List ℚ :=
  (allInKey rs k).filterMap (fun r => r.lat)

/-- Legacy script: the Lat cell of group k. -/
def latMeanOld (rs : List Record) (k : GroupKey) : Option ℚ :=
  meanOf (latValsOld rs k)

/-- Legacy script: age values entering the group mean. -/
def ageValsOld (rs : List Record) (k : GroupKey) : List ℚ :=
  (allInKey rs k).filterMap (fun r => r.age)

/-- Legacy script: the mean age of group k. -/
def ageMeanOld (rs : List Record) (k : GroupKey) : Option ℚ :=
  meanOf (ageValsOld rs k)

/-- Concrete input: one record with subclade code A1. -/
def rsC1 : List Record :=
  [⟨"X", some 500, none, none, "A1"⟩]

/-- The group key of country X in the 0-1000 BP bin. -/
def kX : GroupKey :=
  ("X 0-1000 BP", "X", "0-1000 BP")

/-- Concrete input: a leading-whitespace code and a clean code with the same
subclade in one group. -/
def rsC2 : List Record :=
  [⟨"X", some 500, none, none, " A1"⟩, ⟨"X", some 500, none, none, "A1"⟩]

/-- Concrete input: one basal-only record and one subclade record of the
same basal letter in one group. -/
def rsC4 : List Record :=
  [⟨"X", some 100, none, none, "A"⟩, ⟨"X", some 100, none, none, "A1"⟩]

/-- Concrete input: a Neanderthal record next to a normal one. -/
def rsC5 : List Record :=
  [⟨"X", some 500, none, none, "Neanderthal"⟩, ⟨"X", some 500, none, none, "A"⟩]

/-- Concrete input: a record with non-numeric age next to one with a valid
age. -/
def rsC6 : List Record :=
  [⟨"X", none, none, none, "A"⟩, ⟨"X", some 500, none, none, "B"⟩]

/-- The group key formed for country X when the age coerces to NA. -/
def kNA : GroupKey :=
  ("X <NA>-<NA> BP", "X", "<NA>-<NA> BP")

/-- Concrete input: a valid record and an excluded n/a record with distinct
latitudes in one group. -/
def rsC7 : List Record :=
  [⟨"X", some 500, some 10, some 0, "A"⟩, ⟨"X", some 500, some 30, some 0, "n/a"⟩]

/-- Concrete input: group X has the subclade A1, group Y has only basal A. -/
def rsC9 : List Record :=
  [⟨"X", some 500, none, none, "A1"⟩, ⟨"Y", some 500, none, none, "A"⟩]

/-- The group key of country Y in the 0-1000 BP bin. -/
def kY : GroupKey :=
  ("Y 0-1000 BP", "Y", "0-1000 BP")

/-- Concrete input for witnesses: a single basal record. -/
def rsC3 : List Record :=
  [⟨"X", some 500, none, none, "A"⟩]

/-- A key that belongs to no record at all. -/
def kNone : GroupKey :=
  ("Z", "Z", "Z")

/-- Concrete input for the column-order witness. -/
def rsC8 : List Record :=
  [⟨"X", some 500, none, none, "A1"⟩, ⟨"X", some 500, none, none, "B"⟩]

/-- A record with the excluded placeholder code n/a. -/
def rInvalid : Record :=
  ⟨"X", some 500, none, none, "n/a"⟩

/-- A record of group X with a valid code but no age value. -/
def rNoAge : Record :=
  ⟨"X", none, none, none, "A"⟩

/-- A record of group X with a valid code but no latitude value. -/
def rNoLat : Record :=
  ⟨"X", some 500, none, some 3, "A"⟩

end HaploTables

namespace HaploTables

/-- For a duplicate-free list containing y, the indicator sum over the list
is one. -/
theorem sum_if_one {β : Type} [DecidableEq β] (D : List β) (hD : D.Nodup) (y : β)
    (hy : y ∈ D) : (D.map (fun b => if y = b then (1 : ℕ) else 0)).sum = 1 := by
  induction D with
  | nil => cases hy
  | cons a t ih =>
    rcases List.nodup_cons.mp hD with ⟨hat, ht⟩
    rcases List.mem_cons.mp hy with h | h
    · subst h
      have hz : (t.map (fun b => if y = b then (1 : ℕ) else 0)).sum = 0 := by
        apply List.sum_eq_zero
        intro x hx
        rcases List.mem_map.mp hx with ⟨b, hb, hxb⟩
        have hyb : y ≠ b := fun e => hat (e ▸ hb)
        simp [hyb] at hxb
        omega
      simp [hz]
    · have hya : y ≠ a := fun e => hat (e ▸ h)
      simp [hya, ih ht h]

theorem sum_map_add {β : Type} (D : List β) (g h : β → ℕ) :
    (D.map (fun b => g b + h b)).sum = (D.map g).sum + (D.map h).sum := by
  induction D with
  | nil => simp
  | cons a t ih => simp [ih]; omega

/-- Partition of a count: summing, over a duplicate-free list of keys
covering the image of f, the sizes of the fibers of f gives the length. -/
theorem sum_filter_length {α β : Type} [DecidableEq β] (D : List β) (hD : D.Nodup)
    (l : List α) (f : α → β) (hf : ∀ x ∈ l, f x ∈ D) :
    (D.map (fun b => (l.filter (fun x => decide (f x = b))).length)).sum = l.length := by
  induction l with
  | nil => simp
  | cons a t ih =>
    have hfa : f a ∈ D := hf a (List.mem_cons_self a t)
    have ht : ∀ x ∈ t, f x ∈ D := fun x hx => hf x (List.mem_cons_of_mem _ hx)
    have hsplit : ∀ b : β, ((a :: t).filter (fun x => decide (f x = b))).length
        = (if f a = b then 1 else 0) + (t.filter (fun x => decide (f x = b))).length := by
      intro b
      by_cases hab : f a = b
      · simp [List.filter_cons, hab]
        omega
      · simp [List.filter_cons, hab]
    rw [List.map_congr_left (fun b _ => hsplit b), sum_map_add D _ _,
      sum_if_one D hD (f a) hfa, ih ht]
    simp [Nat.add_comm]

theorem sortedD_nodup {α : Type} [LinearOrder α] (l : List α) : (sortedD l).Nodup :=
  ((List.perm_insertionSort _ _).nodup_iff).mpr l.nodup_dedup

theorem mem_sortedD {α : Type} [LinearOrder α] {a : α} {l : List α} :
    a ∈ sortedD l ↔ a ∈ l := by
  unfold sortedD
  rw [(List.perm_insertionSort _ _).mem_iff, List.mem_dedup]

theorem sortedD_pairwise {α : Type} [LinearOrder α] (l : List α) :
    (sortedD l).Pairwise (· < ·) := by
  have hs : (sortedD l).Pairwise (· ≤ ·) := List.sorted_insertionSort _ _
  exact (hs.and (sortedD_nodup l)).imp (fun h => lt_of_le_of_ne h.1 h.2)

theorem mem_basalLetters {rs : List Record} {r : Record} (h : r ∈ validRecords rs) :
    haploBasalChar r.haplo ∈ basalLetters rs :=
  mem_sortedD.mpr (List.mem_map_of_mem _ h)

theorem mem_basalLettersOld {rs : List Record} {r : Record}
    (h : r ∈ validRecordsOld rs) : haploBasalChar r.haplo ∈ basalLettersOld rs :=
  mem_sortedD.mpr (List.mem_map_of_mem _ h)

/-- The Total_count column is the number of valid records of the group. -/
theorem rawTotal_eq (rs : List Record) (k : GroupKey) :
    rawTotal rs k = numValidIn rs k := by
  unfold rawTotal numValidIn basalCount
  exact sum_filter_length (basalLetters rs) (sortedD_nodup _) (validInKey rs k)
    (fun r => haploBasalChar r.haplo)
    (fun r hr => mem_basalLetters (List.mem_of_mem_filter hr))

/-- The legacy Total column is the number of counted records of the group. -/
theorem rawTotalOld_eq (rs : List Record) (k : GroupKey) :
    rawTotalOld rs k = numValidInOld rs k := by
  unfold rawTotalOld numValidInOld basalCountOld
  exact sum_filter_length (basalLettersOld rs) (sortedD_nodup _) (validInKeyOld rs k)
    (fun r => haploBasalChar r.haplo)
    (fun r hr => mem_basalLettersOld (List.mem_of_mem_filter hr))

/-- The per-basal subclade counts of one (group, subclade) cell sum to the
total number of records of the group carrying that subclade. -/
theorem specCount_eq_sum (rs : List Record) (k : GroupKey) (sc : String) :
    ((subBasals rs k sc).map (fun b => groupedSubCount rs k b sc)).sum
      = specSubcladeCount rs k sc := by
  unfold subBasals groupedSubCount specSubcladeCount
  exact sum_filter_length _ (List.nodup_dedup _) (subRecs rs k sc)
    (fun r => haploBasalChar r.haplo)
    (fun r hr => List.mem_dedup.mpr (List.mem_map_of_mem _ hr))

theorem subRecs_eq_nil_of_spec_zero {rs : List Record} {k : GroupKey} {sc : String}
    (h : specSubcladeCount rs k sc = 0) : subRecs rs k sc = [] :=
  List.eq_nil_of_length_eq_zero h

/-- When at most one basal letter carries the subclade in the group, the
pivoted cell equals the plain record count. -/
theorem pivotSubVal_of_single {rs : List Record} {k : GroupKey} {sc : String}
    (h : (subBasals rs k sc).length ≤ 1) :
    pivotSubVal rs k sc = (specSubcladeCount rs k sc : ℚ) := by
  have hsum := specCount_eq_sum rs k sc
  unfold pivotSubVal
  cases hbs : subBasals rs k sc with
  | nil =>
    rw [hbs] at hsum
    simp at hsum
    simp [← hsum]
  | cons b t =>
    cases t with
    | nil =>
      rw [hbs] at hsum
      simp at hsum
      simp [← hsum]
    | cons b2 t2 =>
      rw [hbs] at h
      simp at h

/-- The machine-division bin floor is the mathematical floor of age / 1000. -/
theorem binFloor_eq (a : ℚ) : binFloor a = ⌊a / 1000⌋ := by
  unfold binFloor
  rw [Int.fdiv_eq_ediv _ (by positivity)]
  have h : a / 1000 = (a.num : ℚ) / ((1000 * a.den : ℕ) : ℚ) := by
    push_cast
    rw [mul_comm (1000 : ℚ) (a.den : ℚ), ← div_div, Rat.num_div_den]
  rw [h, Rat.floor_intCast_div_natCast]
  push_cast
  ring

/-- Appending a record with an invalid code leaves df_valid unchanged. -/
theorem validRecords_cons_invalid {rs : List Record} {r : Record}
    (h : validCode r.haplo = false) : validRecords (r :: rs) = validRecords rs := by
  simp [validRecords, List.filter_cons, h]

/-- Appending a record with a valid code puts it into df_valid. -/
theorem validRecords_cons_valid {rs : List Record} {r : Record}
    (h : validCode r.haplo = true) : validRecords (r :: rs) = r :: validRecords rs := by
  simp [validRecords, List.filter_cons, h]

/-- A (group, subclade) cell with no carrying record pivots to zero. -/
theorem pivotSubVal_eq_zero_of_no_sub {rs : List Record} {k : GroupKey} {sc : String}
    (h : subRecs rs k sc = []) : pivotSubVal rs k sc = 0 := by
  simp [pivotSubVal, subBasals, h]

/-- C1 counterexample: for the single record with code A1 the printed Total
is 2, while the basal-count sum and the number of valid records of the group
are both 1 — the subclade occurrence is added a second time. -/
theorem c1_counterexample :
    displayedTotal rsC1 kX = 2
  ∧ rawTotal rsC1 kX = 1
  ∧ numValidIn rsC1 kX = 1
  ∧ (2 : ℤ) ≠ (1 : ℤ) := by
  have hbs : subBasals rsC1 kX "A1" = ['A'] := by decide
  have hg : groupedSubCount rsC1 kX 'A' "A1" = 1 := by decide
  have hsub : subCols rsC1 = ["A1"] := by decide
  have hraw : rawTotal rsC1 kX = 1 := by decide
  have hpv : pivotSubVal rsC1 kX "A1" = 1 := by
    simp [pivotSubVal, hbs, hg]
  have hout : outputTotalQ rsC1 kX = 2 := by
    rw [outputTotalQ, hsub, hraw]
    simp [hpv]
    norm_num
  refine ⟨?_, hraw, by decide, by decide⟩
  rw [displayedTotal, hout, pyTrunc]
  norm_num

/-- C1 (amended): in the new script the printed Total equals the number of
valid records of the group PLUS the row sum of the pivoted subclade columns,
so subclade occurrences are counted twice; it equals the plain valid-record
count exactly when the group carries no subclade.  The basal-count sum
itself does equal the valid-record count, and in the legacy script (which
has no subclade columns) the Total column is exactly that sum. -/
theorem c1_amended_total (rs : List Record) (k : GroupKey) :
    outputTotalQ rs k
      = (numValidIn rs k : ℚ) + ((subCols rs).map (fun sc => pivotSubVal rs k sc)).sum
  ∧ rawTotal rs k = numValidIn rs k
  ∧ rawTotalOld rs k = numValidInOld rs k
  ∧ ((∀ r ∈ validInKey rs k, parseSubclade r.haplo = none) →
      outputTotalQ rs k = (numValidIn rs k : ℚ)) := by
  refine ⟨by unfold outputTotalQ; rw [rawTotal_eq], rawTotal_eq rs k, rawTotalOld_eq rs k, ?_⟩
  intro hnone
  have hz : ((subCols rs).map (fun sc => pivotSubVal rs k sc)).sum = 0 := by
    apply List.sum_eq_zero
    intro x hx
    rcases List.mem_map.mp hx with ⟨sc, _, hsc⟩
    have hnil : subRecs rs k sc = [] := by
      rw [subRecs, List.filter_eq_nil_iff]
      intro r hr
      simp [hnone r hr]
    rw [← hsc]
    exact pivotSubVal_eq_zero_of_no_sub hnil
  unfold outputTotalQ
  rw [hz, rawTotal_eq, add_zero]

/-- C1 witness: a group with a single basal-only record has Total 1. -/
theorem c1_amended_total_witness :
    outputTotalQ rsC3 kX = (numValidIn rsC3 kX : ℚ) :=
  (c1_amended_total rsC3 kX).2.2.2 (by decide)

/-- C3: basal percentages are the basal count over the group total times
100; a zero total gives percentage zero instead of an error, and the
zero-total condition raises the warning flag; moreover every group actually
appearing in the table has a positive total, so the zero branch never fires
on an output row. -/
theorem c3_basal_pct_policy (rs : List Record) :
    (∀ k b, 0 < rawTotal rs k →
        basalPct rs k b * (rawTotal rs k : ℚ) = 100 * (basalCount rs k b : ℚ))
  ∧ (∀ k b, rawTotal rs k = 0 → basalPct rs k b = 0)
  ∧ (warnZeroTotal rs = true ↔ ∃ k ∈ groupKeys rs, rawTotal rs k = 0)
  ∧ (∀ k ∈ groupKeys rs, 0 < rawTotal rs k) := by
  refine ⟨?_, ?_, ?_, ?_⟩
  · intro k b h
    unfold basalPct
    rw [if_pos h]
    have hT : ((rawTotal rs k : ℚ)) ≠ 0 := (Nat.cast_pos.mpr h).ne'
    field_simp
    ring
  · intro k b h
    unfold basalPct
    rw [if_neg (by omega)]
  · simp [warnZeroTotal, List.any_eq_true]
  · intro k hk
    rw [rawTotal_eq]
    rcases List.mem_map.mp (List.mem_dedup.mp hk) with ⟨r, hr, hrk⟩
    have hmem : r ∈ validInKey rs k :=
      List.mem_filter.mpr ⟨hr, by simp [hrk]⟩
    exact List.length_pos.mpr (List.ne_nil_of_mem hmem)

/-- C3 witness: concrete positive-total and zero-total cases. -/
theorem c3_basal_pct_policy_witness :
    basalPct rsC3 kX 'A' * (rawTotal rsC3 kX : ℚ) = 100 * (basalCount rsC3 kX 'A' : ℚ)
  ∧ basalPct rsC3 kNone 'A' = 0
  ∧ 0 < rawTotal rsC3 kX :=
  ⟨(c3_basal_pct_policy rsC3).1 kX 'A' (by decide),
   (c3_basal_pct_policy rsC3).2.1 kNone 'A' (by decide),
   (c3_basal_pct_policy rsC3).2.2.2 kX (by decide)⟩

/-- C2 counterexample: with codes " A1" (leading space) and "A1" in one
group, the subclade cell pivots to the mean of the two per-basal counts, so
the printed percentage is 100, while the claim formula
100 * subclade_count / basal_count gives 100 * 2 / 1 = 200. -/
theorem c2_counterexample :
    subPct rsC2 kX "A1" = 100
  ∧ specSubcladeCount rsC2 kX "A1" = 2
  ∧ basalCount rsC2 kX 'A' = 1
  ∧ (100 : ℚ) ≠ 100 * 2 / 1 := by
  have hbs : subBasals rsC2 kX "A1" = [' ', 'A'] := by decide
  have hg1 : groupedSubCount rsC2 kX ' ' "A1" = 1 := by decide
  have hg2 : groupedSubCount rsC2 kX 'A' "A1" = 1 := by decide
  have hparent : parentOf "A1" = 'A' := by decide
  have hbc : basalCount rsC2 kX 'A' = 1 := by decide
  have hpv : pivotSubVal rsC2 kX "A1" = 1 := by
    simp [pivotSubVal, hbs, hg1, hg2]
  refine ⟨?_, by decide, hbc, by norm_num⟩
  rw [subPct, hparent]
  rw [hbc, hpv]
  norm_num

/-- C2 (amended): the printed subclade percentage is 100 times the PIVOTED
subclade value over the parent basal count of the group (zero when the
parent count is zero); the pivoted value is the record count of the
(group, subclade) pair whenever at most one basal bucket carries it, which
holds for all codes without leading whitespace. -/
theorem c2_amended_subclade_pct (rs : List Record) (k : GroupKey) (sc : String) :
    (basalCount rs k (parentOf sc) = 0 → subPct rs k sc = 0)
  ∧ (0 < basalCount rs k (parentOf sc) →
      subPct rs k sc * (basalCount rs k (parentOf sc) : ℚ) = 100 * pivotSubVal rs k sc)
  ∧ ((subBasals rs k sc).length ≤ 1 →
      pivotSubVal rs k sc = (specSubcladeCount rs k sc : ℚ)) := by
  refine ⟨?_, ?_, pivotSubVal_of_single⟩
  · intro h
    rw [subPct, if_neg (by omega)]
  · intro h
    rw [subPct, if_pos h]
    have hp : ((basalCount rs k (parentOf sc) : ℚ)) ≠ 0 := (Nat.cast_pos.mpr h).ne'
    field_simp
    ring

/-- C2 witness: a single clean A1 record. -/
theorem c2_amended_subclade_pct_witness :
    subPct rsC1 kX "A1" * (basalCount rsC1 kX (parentOf "A1") : ℚ)
      = 100 * pivotSubVal rsC1 kX "A1"
  ∧ pivotSubVal rsC1 kX "A1" = (specSubcladeCount rsC1 kX "A1" : ℚ) :=
  ⟨(c2_amended_subclade_pct rsC1 kX "A1").2.1 (by decide),
   (c2_amended_subclade_pct rsC1 kX "A1").2.2 (by decide)⟩

/-- Sum of a list mapped through division and scaling. -/
theorem sum_map_div_mul {α : Type} (L : List α) (g : α → ℚ) (p : ℚ) :
    (L.map (fun x => g x / p * 100)).sum = (L.map g).sum / p * 100 := by
  induction L with
  | nil => simp
  | cons a t ih =>
    simp [ih]
    ring

/-- C4 counterexample: group X holds records A and A1, so the subclade
percentages of basal A sum to 50, not 100, although the basal count is
positive. -/
theorem c4_counterexample :
    sumSubPct rsC4 kX 'A' = 50
  ∧ basalCount rsC4 kX 'A' = 2
  ∧ (50 : ℚ) ≠ 100
  ∧ (50 : ℚ) < 99 := by
  have hflt : (subCols rsC4).filter (fun sc => decide (parentOf sc = 'A')) = ["A1"] := by decide
  have hbs : subBasals rsC4 kX "A1" = ['A'] := by decide
  have hg : groupedSubCount rsC4 kX 'A' "A1" = 1 := by decide
  have hparent : parentOf "A1" = 'A' := by decide
  have hbc : basalCount rsC4 kX 'A' = 2 := by decide
  have hpv : pivotSubVal rsC4 kX "A1" = 1 := by
    simp [pivotSubVal, hbs, hg]
  have hsp : subPct rsC4 kX "A1" = 50 := by
    rw [subPct, hparent]
    rw [hbc, hpv]
    norm_num
  refine ⟨?_, hbc, by norm_num, by norm_num⟩
  rw [sumSubPct, hflt]
  simp [hsp]

/-- C4 (amended): for each group and basal letter, the subclade percentages
of that letter sum to zero when its basal count is zero, and otherwise to
100 times the sum of the pivoted subclade values over the basal count — 100
exactly when every record counted under the basal carries a subclade, less
otherwise. -/
theorem c4_amended_subclade_sum (rs : List Record) (k : GroupKey) (b : Char) :
    (basalCount rs k b = 0 → sumSubPct rs k b = 0)
  ∧ (0 < basalCount rs k b →
      sumSubPct rs k b * (basalCount rs k b : ℚ)
        = 100 * (((subCols rs).filter (fun sc => decide (parentOf sc = b))).map
            (fun sc => pivotSubVal rs k sc)).sum) := by
  constructor
  · intro h
    apply List.sum_eq_zero
    intro x hx
    rcases List.mem_map.mp hx with ⟨sc, hsc, hval⟩
    have hpar : parentOf sc = b := of_decide_eq_true (List.mem_filter.mp hsc).2
    rw [← hval, subPct, hpar, h]
    simp
  · intro h
    have hp : ((basalCount rs k b : ℚ)) ≠ 0 := (Nat.cast_pos.mpr h).ne'
    have hmap : ((subCols rs).filter (fun sc => decide (parentOf sc = b))).map
          (fun sc => subPct rs k sc)
        = ((subCols rs).filter (fun sc => decide (parentOf sc = b))).map
          (fun sc => pivotSubVal rs k sc / (basalCount rs k b : ℚ) * 100) := by
      apply List.map_congr_left
      intro sc hsc
      have hpar : parentOf sc = b := of_decide_eq_true (List.mem_filter.mp hsc).2
      rw [subPct, hpar, if_pos h]
    rw [sumSubPct, hmap, sum_map_div_mul]
    field_simp
    ring

/-- C4 witness: a group with a single A1 record sums to 100 for basal A. -/
theorem c4_amended_subclade_sum_witness :
    sumSubPct rsC1 kX 'A' * (basalCount rsC1 kX 'A' : ℚ)
      = 100 * (((subCols rsC1).filter (fun sc => decide (parentOf sc = 'A'))).map
          (fun sc => pivotSubVal rsC1 kX sc)).sum :=
  (c4_amended_subclade_sum rsC1 kX 'A').2 (by decide)

/-- C5 counterexample: the literal code Neanderthal is invalid in the new
script but valid in the legacy script, where the record is counted under
basal N and enters the group total. -/
theorem c5_counterexample :
    validCode "Neanderthal" = false
  ∧ validCodeOld "Neanderthal" = true
  ∧ basalCountOld rsC5 kX 'N' = 1
  ∧ rawTotalOld rsC5 kX = 2
  ∧ numValidIn rsC5 kX = 1
  ∧ (1 : ℕ) ≠ 0 := by
  refine ⟨by decide, by decide, by decide, by decide, by decide, by decide⟩

/-- C5 (amended): in the new script a code is valid exactly as the claim
states (trimmed length one, or length at least two with a digit second
character, the placeholder tokens always excluded) and an invalid record
contributes to no count and no total; the legacy script instead excludes
only the four placeholder tokens, without the Neanderthal token and without
the digit rule. -/
theorem c5_amended_validity :
    (∀ s : String, validCode s = true ↔
      (((pyStrip s).length = 1 ∨
          (2 ≤ (pyStrip s).length ∧ ∃ c, (pyStrip s).data.get? 1 = some c ∧ c.isDigit = true))
        ∧ pyStrip s ∉ invalidTokens))
  ∧ (∀ (rs : List Record) (r : Record), validCode r.haplo = false →
        validRecords (r :: rs) = validRecords rs)
  ∧ (∀ (rs : List Record) (r : Record) (k : GroupKey) (b : Char) (sc : String),
        validCode r.haplo = false →
        basalCount (r :: rs) k b = basalCount rs k b
      ∧ specSubcladeCount (r :: rs) k sc = specSubcladeCount rs k sc
      ∧ rawTotal (r :: rs) k = rawTotal rs k
      ∧ outputTotalQ (r :: rs) k = outputTotalQ rs k
      ∧ numValidIn (r :: rs) k = numValidIn rs k)
  ∧ (∀ s : String, validCodeOld s = true ↔ pyStrip s ∉ invalidTokensOld) := by
  refine ⟨?_, fun rs r h => validRecords_cons_invalid h, ?_, ?_⟩
  · intro s
    have hlen : (pyStrip s).length = (pyStripList s.data).length := rfl
    have hdat : (pyStrip s).data = pyStripList s.data := rfl
    rcases hm : pyStripList s.data with _ | ⟨c1, _ | ⟨c2, rest⟩⟩
    · simp [validCode, isValidHaplo, hm, hlen, hdat]
    · simp [validCode, isValidHaplo, hm, hlen, hdat, pyStrip]
    · simp [validCode, isValidHaplo, hm, hlen, hdat, pyStrip]
      exact and_comm
  · intro rs r k b sc hf
    have hv := @validRecords_cons_invalid rs r hf
    refine ⟨?_, ?_, ?_, ?_, ?_⟩ <;>
      simp only [basalCount, specSubcladeCount, subRecs, rawTotal, outputTotalQ, numValidIn,
        validInKey, basalLetters, subCols, subBasals, groupedSubCount, pivotSubVal, hv]
  · intro s
    simp [validCodeOld]

/-- C5 witness: inserting an n/a record changes no count of group X. -/
theorem c5_amended_validity_witness :
    basalCount (rInvalid :: rsC3) kX 'A' = basalCount rsC3 kX 'A'
  ∧ rawTotal (rInvalid :: rsC3) kX = rawTotal rsC3 kX
  ∧ outputTotalQ (rInvalid :: rsC3) kX = outputTotalQ rsC3 kX
  ∧ (validCode "A1" = true ↔
      (((pyStrip "A1").length = 1 ∨
          (2 ≤ (pyStrip "A1").length ∧
            ∃ c, (pyStrip "A1").data.get? 1 = some c ∧ c.isDigit = true))
        ∧ pyStrip "A1" ∉ invalidTokens)) := by
  have h := c5_amended_validity.2.2.1 rsC3 rInvalid kX 'A' "A1" (by decide)
  exact ⟨h.1, h.2.2.1, h.2.2.2.1, c5_amended_validity.1 "A1"⟩

/-- C6 counterexample: a record with non-numeric age is binned into the
literal NA bin string, joins the group formed from it, and is counted
there, instead of being excluded. -/
theorem c6_counterexample :
    binnedAge rNoAge = "<NA>-<NA> BP"
  ∧ kNA ∈ groupKeys rsC6
  ∧ numValidIn rsC6 kNA = 1
  ∧ "<NA>-<NA> BP" ≠ "0-1000 BP" := by
  refine ⟨by decide, by decide, by decide, by decide⟩

/-- C6 (amended): a record with undefined age is not coerced into the
0-1000 bin, but it is not excluded either: its bin label is the literal NA
string, and when its haplogroup code is valid it forms and joins a group
under that label. -/
theorem c6_amended_age_binning (rs : List Record) (r : Record) (h : r.age = none) :
    binnedAge r = "<NA>-<NA> BP"
  ∧ binnedAge r ≠ "0-1000 BP"
  ∧ (validCode r.haplo = true → key r ∈ groupKeys (r :: rs)) := by
  have hb : binnedAge r = "<NA>-<NA> BP" := by
    simp [binnedAge, h]
  refine ⟨hb, by rw [hb]; decide, ?_⟩
  intro hvc
  rw [groupKeys, validRecords_cons_valid hvc]
  exact List.mem_dedup.mpr (by simp)

/-- C6 witness: the concrete ageless record. -/
theorem c6_amended_age_binning_witness :
    binnedAge rNoAge = "<NA>-<NA> BP"
  ∧ binnedAge rNoAge ≠ "0-1000 BP"
  ∧ key rNoAge ∈ groupKeys (rNoAge :: rsC3) := by
  have h := c6_amended_age_binning rsC3 rNoAge (by decide)
  exact ⟨h.1, h.2.1, h.2.2 (by decide)⟩

/-- Inserting a valid record of the group puts it in front of the group's
valid record list. -/
theorem validInKey_cons_of_mem {rs : List Record} {r : Record} {k : GroupKey}
    (h : validCode r.haplo = true) (hk : key r = k) :
    validInKey (r :: rs) k = r :: validInKey rs k := by
  unfold validInKey
  rw [validRecords_cons_valid h, List.filter_cons_of_pos (by simp [hk])]

/-- C7 counterexample: the legacy script averages latitude over ALL rows of
the group key, including the n/a record that both scripts exclude from the
counts, giving 20 instead of the 10 obtained from the valid records alone. -/
theorem c7_counterexample :
    latMeanOld rsC7 kX = some 20
  ∧ latMean rsC7 kX = some 10
  ∧ validCode "n/a" = false
  ∧ validCodeOld "n/a" = false
  ∧ some (20 : ℚ) ≠ some (10 : ℚ) := by
  have h1 : latValsOld rsC7 kX = [10, 30] := by decide
  have h2 : latVals rsC7 kX = [10] := by decide
  refine ⟨?_, ?_, by decide, by decide, by norm_num⟩
  · rw [latMeanOld, h1]
    simp [meanOf]
    norm_num
  · rw [latMean, h2]
    simp [meanOf]

/-- C7 (amended): in the new script the latitude, longitude and age means
are computed over exactly the valid records of the group — an excluded
record never moves them, and a valid record with a missing value is omitted
from that mean rather than counted as zero — and each reported mean is the
arithmetic mean of the values entering it; the legacy script instead
averages over every input row of the group key (its means still omit
missing values rather than zero-filling them). -/
theorem c7_amended_coordinate_means :
    (∀ (rs : List Record) (r : Record) (k : GroupKey), validCode r.haplo = false →
        latMean (r :: rs) k = latMean rs k
      ∧ lonMean (r :: rs) k = lonMean rs k
      ∧ ageMean (r :: rs) k = ageMean rs k)
  ∧ (∀ (rs : List Record) (r : Record) (k : GroupKey),
        validCode r.haplo = true → key r = k → r.lat = none →
        latMean (r :: rs) k = latMean rs k)
  ∧ (∀ (rs : List Record) (r : Record) (k : GroupKey),
        validCode r.haplo = true → key r = k → r.lon = none →
        lonMean (r :: rs) k = lonMean rs k)
  ∧ (∀ (rs : List Record) (r : Record) (k : GroupKey),
        validCode r.haplo = true → key r = k → r.age = none →
        ageMean (r :: rs) k = ageMean rs k)
  ∧ (∀ (rs : List Record) (r : Record) (k : GroupKey),
        key r = k → r.lat = none → latMeanOld (r :: rs) k = latMeanOld rs k)
  ∧ (∀ (l : List ℚ) (q : ℚ), meanOf l = some q → q * (l.length : ℚ) = l.sum) := by
  refine ⟨?_, ?_, ?_, ?_, ?_, ?_⟩
  · intro rs r k hf
    have hv := @validRecords_cons_invalid rs r hf
    refine ⟨?_, ?_, ?_⟩ <;>
      simp only [latMean, lonMean, ageMean, latVals, lonVals, ageVals, validInKey, hv]
  · intro rs r k hva hk hlat
    rw [latMean, latMean, latVals, latVals, validInKey_cons_of_mem hva hk,
      List.filterMap_cons_none hlat]
  · intro rs r k hva hk hlon
    rw [lonMean, lonMean, lonVals, lonVals, validInKey_cons_of_mem hva hk,
      List.filterMap_cons_none hlon]
  · intro rs r k hva hk hage
    rw [ageMean, ageMean, ageVals, ageVals, validInKey_cons_of_mem hva hk,
      List.filterMap_cons_none hage]
  · intro rs r k hk hlat
    rw [latMeanOld, latMeanOld, latValsOld, latValsOld, allInKey, allInKey,
      List.filter_cons_of_pos (by simp [hk]), List.filterMap_cons_none hlat]
  · intro l q hq
    rw [meanOf] at hq
    by_cases he : l.isEmpty
    · rw [if_pos he] at hq
      cases hq
    · rw [if_neg he] at hq
      have hlen : l.length ≠ 0 := by
        intro h0
        exact he (List.isEmpty_iff.mpr (List.eq_nil_of_length_eq_zero h0))
      have hlq : ((l.length : ℚ)) ≠ 0 := Nat.cast_ne_zero.mpr hlen
      have := Option.some_inj.mp hq
      rw [← this, div_mul_cancel₀ _ hlq]

/-- C7 witness: concrete invariance and mean facts. -/
theorem c7_amended_coordinate_means_witness :
    latMean (rInvalid :: rsC3) kX = latMean rsC3 kX
  ∧ latMean (rNoLat :: rsC3) kX = latMean rsC3 kX
  ∧ (20 : ℚ) * ((([(10 : ℚ), 30]).length : ℚ)) = ([(10 : ℚ), 30]).sum := by
  refine ⟨(c7_amended_coordinate_means.1 rsC3 rInvalid kX (by decide)).1,
    c7_amended_coordinate_means.2.1 rsC3 rNoLat kX (by decide) (by decide) (by decide),
    c7_amended_coordinate_means.2.2.2.2.2 [10, 30] 20 ?_⟩
  rw [meanOf]
  norm_num

/-- Rounding zero gives zero. -/
theorem roundHalfEven_zero : roundHalfEven 0 = 0 := by
  unfold roundHalfEven
  norm_num

/-- The two-decimal rendering of zero. -/
theorem fmt2_zero : fmt2 0 = "0.00" := by
  unfold fmt2
  rw [show roundHalfEven (0 * 100) = 0 by rw [zero_mul, roundHalfEven_zero]]
  decide

/-- The rendered percentage cell of value zero. -/
theorem fmtPct_zero : fmtPct 0 = "0.00%" := by
  rw [fmtPct, fmt2_zero]
  decide

/-- A rendered percentage cell is never the empty string. -/
theorem fmtPct_ne_empty (q : ℚ) : fmtPct q ≠ "" := by
  intro h
  have h2 := congrArg String.length h
  rw [fmtPct, String.length_append] at h2
  have h3 : ("%" : String).length = 1 := rfl
  have h4 : ("" : String).length = 0 := rfl
  omega

/-- A group with no record of the subclade gets subclade percentage zero. -/
theorem subPct_of_spec_zero {rs : List Record} {k : GroupKey} {sc : String}
    (h : specSubcladeCount rs k sc = 0) : subPct rs k sc = 0 := by
  have hpv : pivotSubVal rs k sc = 0 :=
    pivotSubVal_eq_zero_of_no_sub (subRecs_eq_nil_of_spec_zero h)
  rw [subPct, hpv]
  split <;> simp

/-- Every subclade column name consists of exactly two characters. -/
theorem subCols_shape {rs : List Record} {sc : String} (h : sc ∈ subCols rs) :
    ∃ a b, sc.data = [a, b] := by
  rcases List.mem_filterMap.mp (mem_sortedD.mp h) with ⟨r, _, hp⟩
  unfold parseSubclade at hp
  rcases hm : pyStripList r.haplo.data with _ | ⟨c1, _ | ⟨c2, rest⟩⟩ <;> rw [hm] at hp
  · simp at hp
  · simp at hp
  · have hp2 : (if c2.isDigit = true then some (⟨[c1.toUpper, c2.toUpper]⟩ : String) else none)
        = some sc := hp
    by_cases hd : c2.isDigit = true
    · rw [if_pos hd] at hp2
      have hsc := Option.some_inj.mp hp2
      exact ⟨c1.toUpper, c2.toUpper, by rw [← hsc]⟩
    · rw [if_neg hd] at hp2
      simp at hp2

/-- C9 counterexample: group Y has basal A data but no A1 record, yet its
A1 cell renders as a zero percentage, not as a blank cell. -/
theorem c9_counterexample :
    kY ∈ groupKeys rsC9
  ∧ "A1" ∈ subCols rsC9
  ∧ specSubcladeCount rsC9 kY "A1" = 0
  ∧ haploCell rsC9 kY "A1" = "0.00%"
  ∧ ("0.00%" : String) ≠ "" := by
  have hz : specSubcladeCount rsC9 kY "A1" = 0 := by decide
  refine ⟨by decide, by decide, hz, ?_, by decide⟩
  have hc : haploCell rsC9 kY "A1" = fmtPct (subPct rsC9 kY "A1") := rfl
  rw [hc, subPct_of_spec_zero hz, fmtPct_zero]

/-- C9 (amended): every haplogroup cell of an output row — subclade or
basal column — is rendered as a two-decimal percentage string and is never
blank; a group with no record of an observed subclade shows 0.00 percent in
that column rather than an empty cell. -/
theorem c9_amended_cell_format (rs : List Record) (k : GroupKey) (sc : String) (b : Char) :
    (sc ∈ subCols rs →
        haploCell rs k sc = fmtPct (subPct rs k sc)
      ∧ haploCell rs k sc ≠ ""
      ∧ (specSubcladeCount rs k sc = 0 → haploCell rs k sc = "0.00%"))
  ∧ (b ∈ basalLetters rs →
        haploCell rs k (String.singleton b) = fmtPct (basalPct rs k b)
      ∧ haploCell rs k (String.singleton b) ≠ "") := by
  constructor
  · intro hmem
    rcases subCols_shape hmem with ⟨a, c, hd⟩
    have hcell : haploCell rs k sc = fmtPct (subPct rs k sc) := by
      rw [haploCell, hd]
    refine ⟨hcell, by rw [hcell]; exact fmtPct_ne_empty _, ?_⟩
    intro hz
    rw [hcell, subPct_of_spec_zero hz, fmtPct_zero]
  · intro _
    have hcell : haploCell rs k (String.singleton b) = fmtPct (basalPct rs k b) := rfl
    exact ⟨hcell, by rw [hcell]; exact fmtPct_ne_empty _⟩

/-- C9 witness: the concrete cells of groups X and Y. -/
theorem c9_amended_cell_format_witness :
    haploCell rsC9 kY "A1" = fmtPct (subPct rsC9 kY "A1")
  ∧ haploCell rsC9 kY "A1" ≠ ""
  ∧ haploCell rsC9 kY (String.singleton 'A') = fmtPct (basalPct rsC9 kY 'A') := by
  have h1 := (c9_amended_cell_format rsC9 kY "A1" 'A').1 (by decide)
  have h2 := (c9_amended_cell_format rsC9 kY "A1" 'A').2 (by decide)
  exact ⟨h1.1, h1.2.1, h2.1⟩

/-- Converting a small valid code point back to a number is the identity. -/
theorem char_toNat_ofNat {m : ℕ} (h : m < 55296) : (Char.ofNat m).toNat = m := by
  unfold Char.ofNat
  rw [dif_pos (Or.inl h)]
  rfl

/-- Every Python whitespace character has code point at most 32. -/
theorem isPySpace_toNat {c : Char} (h : isPySpace c = true) : c.toNat ≤ 32 := by
  simp [isPySpace, Bool.or_eq_true, beq_iff_eq] at h
  rcases h with ((((h | h) | h) | h) | h) | h <;> subst h <;> decide

/-- Upper-casing fixes every Python whitespace character. -/
theorem toUpper_pySpace {c : Char} (h : isPySpace c = true) : c.toUpper = c := by
  simp [isPySpace, Bool.or_eq_true, beq_iff_eq] at h
  rcases h with ((((h | h) | h) | h) | h) | h <;> subst h <;> decide

/-- Upper-casing never turns a non-whitespace character into whitespace. -/
theorem isPySpace_toUpper_false {c : Char} (h : isPySpace c = false) :
    isPySpace c.toUpper = false := by
  have hdef : c.toUpper
      = if c.toNat ≥ 97 ∧ c.toNat ≤ 122 then Char.ofNat (c.toNat - 32) else c := rfl
  rw [hdef]
  by_cases hl : c.toNat ≥ 97 ∧ c.toNat ≤ 122
  · rw [if_pos hl]
    cases hsp : isPySpace (Char.ofNat (c.toNat - 32)) with
    | false => rfl
    | true =>
      have h1 := isPySpace_toNat hsp
      have h2 : (Char.ofNat (c.toNat - 32)).toNat = c.toNat - 32 :=
        char_toNat_ofNat (by omega)
      rw [h2] at h1
      omega
  · rw [if_neg hl]
    exact h

/-- The first element surviving dropWhile falsifies the predicate. -/
theorem dropWhile_head_false {p : Char → Bool} :
    ∀ {l : List Char} {a : Char} {t : List Char}, l.dropWhile p = a :: t → p a = false := by
  intro l
  induction l with
  | nil =>
    intro a t h
    simp [List.dropWhile] at h
  | cons b l' ih =>
    intro a t h
    rw [List.dropWhile_cons] at h
    by_cases hb : p b = true
    · rw [if_pos hb] at h
      exact ih h
    · rw [if_neg hb] at h
      injection h with h1 _
      subst h1
      exact Bool.not_eq_true _ ▸ (by simpa using hb)

/-- The head of a stripped string is never whitespace. -/
theorem pyStripList_head_false {l : List Char} {a : Char} {t : List Char}
    (h : pyStripList l = a :: t) : isPySpace a = false := by
  unfold pyStripList at h
  have hsuf : ((l.dropWhile isPySpace).reverse.dropWhile isPySpace)
      <:+ (l.dropWhile isPySpace).reverse := List.dropWhile_suffix _
  have hpre : ((l.dropWhile isPySpace).reverse.dropWhile isPySpace).reverse
      <+: l.dropWhile isPySpace := by
    have h2 := List.reverse_prefix.mpr hsuf
    rwa [List.reverse_reverse] at h2
  rcases hpre with ⟨rest, hrest⟩
  rw [h] at hrest
  have hm2 : l.dropWhile isPySpace = a :: (t ++ rest) := by
    rw [← hrest]
    simp
  exact dropWhile_head_false hm2

/-- C10: for a code that is valid after trimming but starts with a
whitespace character, the basal bucket is that whitespace character itself
(upper-casing fixes it), while any parsed subclade starts with the trimmed
code's upper-cased first character, which is not whitespace — so the basal
column and the subclade's parent letter disagree. -/
theorem c10_basal_subclade_mismatch (s : String) (c : Char) (cs : List Char)
    (hdata : s.data = c :: cs) (hsp : isPySpace c = true) (_hv : validCode s = true) :
    haploBasalChar s = c
  ∧ isPySpace (haploBasalChar s) = true
  ∧ (∀ sc, parseSubclade s = some sc →
      ∃ d t, sc.data = d :: t ∧ isPySpace d = false ∧ d ≠ c) := by
  have hb : haploBasalChar s = c := by
    unfold haploBasalChar
    rw [hdata]
    simp [List.headD]
    exact toUpper_pySpace hsp
  refine ⟨hb, by rw [hb]; exact hsp, ?_⟩
  intro sc hpsc
  unfold parseSubclade at hpsc
  rcases hm : pyStripList s.data with _ | ⟨d1, _ | ⟨d2, rest⟩⟩ <;> rw [hm] at hpsc
  · simp at hpsc
  · simp at hpsc
  · have hp2 : (if d2.isDigit = true then some (⟨[d1.toUpper, d2.toUpper]⟩ : String) else none)
        = some sc := hpsc
    by_cases hd : d2.isDigit = true
    · rw [if_pos hd] at hp2
      have hsc := Option.some_inj.mp hp2
      have hd1 : isPySpace d1 = false := pyStripList_head_false hm
      have hup : isPySpace d1.toUpper = false := isPySpace_toUpper_false hd1
      refine ⟨d1.toUpper, [d2.toUpper], by rw [← hsc], hup, ?_⟩
      intro he
      rw [he] at hup
      rw [hsp] at hup
      cases hup
    · rw [if_neg hd] at hp2
      simp at hp2

/-- C10 witness: the concrete code with a leading space. -/
theorem c10_basal_subclade_mismatch_witness :
    haploBasalChar " A1" = ' '
  ∧ (∃ d t, ("A1" : String).data = d :: t ∧ isPySpace d = false ∧ d ≠ ' ') := by
  have h := c10_basal_subclade_mismatch " A1" ' ' ['A', '1'] (by decide) (by decide) (by decide)
  exact ⟨h.1, h.2.2 "A1" (by decide)⟩

/-- Strings beginning with strictly ordered characters are strictly
ordered. -/
theorem strLt_of_head_lt {x y : String} {cx cy : Char} {tx ty : List Char}
    (hx : x.data = cx :: tx) (hy : y.data = cy :: ty) (h : cx < cy) : x < y := by
  rw [String.lt_iff_toList_lt]
  show x.data < y.data
  rw [hx, hy]
  exact List.Lex.rel h

/-- A one-character string precedes every longer string it starts. -/
theorem strLt_singleton_cons {x : String} {c : Char} {t : List Char}
    (hx : x.data = c :: t) (hne : t ≠ []) : String.singleton c < x := by
  rw [String.lt_iff_toList_lt]
  show [c] < x.data
  rw [hx]
  cases t with
  | nil => exact absurd rfl hne
  | cons d td => exact List.Lex.cons List.Lex.nil

/-- Every column of a basal letter's block starts with that letter. -/
theorem mem_block_head {b : Char} {subs : List String} {x : String}
    (hx : x ∈ String.singleton b :: subs.filter (fun sc => headIs sc b)) :
    ∃ t, x.data = b :: t := by
  rcases List.mem_cons.mp hx with h | h
  · exact ⟨[], by rw [h]; rfl⟩
  · have hh : headIs x b = true := (List.mem_filter.mp h).2
    unfold headIs at hh
    rw [beq_iff_eq] at hh
    cases hd : x.data with
    | nil =>
      rw [hd] at hh
      simp at hh
    | cons a t =>
      rw [hd] at hh
      simp at hh
      exact ⟨t, by rw [hh]⟩

/-- A basal letter's block is strictly sorted: the one-letter column first,
then its subclade columns in their global order. -/
theorem block_pairwise {b : Char} {subs : List String}
    (hS : subs.Pairwise (· < ·)) (hlen : ∀ sc ∈ subs, ∃ a d, sc.data = [a, d]) :
    (String.singleton b :: subs.filter (fun sc => headIs sc b)).Pairwise (· < ·) := by
  rw [List.pairwise_cons]
  constructor
  · intro y hy
    rcases hlen y (List.mem_of_mem_filter hy) with ⟨a, d, hd⟩
    have hh : headIs y b = true := (List.mem_filter.mp hy).2
    have hab : a = b := by
      unfold headIs at hh
      rw [hd] at hh
      simpa using hh
    subst hab
    exact strLt_singleton_cons hd (by simp)
  · exact hS.filter _

/-- The interleaved haplogroup column list is strictly sorted in the string
order whenever the letters and subclade codes are. -/
theorem haploColsOrder_pairwise (letters : List Char) (subs : List String)
    (hL : letters.Pairwise (· < ·)) (hS : subs.Pairwise (· < ·))
    (hlen : ∀ sc ∈ subs, ∃ a d, sc.data = [a, d]) :
    (haploColsOrder letters subs).Pairwise (· < ·) := by
  induction letters with
  | nil => simp [haploColsOrder]
  | cons b rest ih =>
    have hsplit : haploColsOrder (b :: rest) subs
        = (String.singleton b :: subs.filter (fun sc => headIs sc b))
          ++ haploColsOrder rest subs := by
      simp [haploColsOrder]
    rcases List.pairwise_cons.mp hL with ⟨hbrest, hrest⟩
    rw [hsplit, List.pairwise_append]
    refine ⟨block_pairwise hS hlen, ih hrest, ?_⟩
    intro x hx y hy
    rcases mem_block_head hx with ⟨tx, hxd⟩
    unfold haploColsOrder at hy
    rcases List.mem_flatMap.mp hy with ⟨b2, hb2, hyb⟩
    rcases mem_block_head hyb with ⟨ty, hyd⟩
    exact strLt_of_head_lt hxd hyd (hbrest b2 hb2)

/-- Every basal letter's block appears contiguously inside the haplogroup
column list: the letter column immediately followed by its own subclade
columns. -/
theorem haploColsOrder_block_decomp {letters : List Char} {subs : List String} {b : Char}
    (hb : b ∈ letters) :
    ∃ pre post, haploColsOrder letters subs
      = pre ++ (String.singleton b :: subs.filter (fun sc => headIs sc b)) ++ post := by
  rcases List.append_of_mem hb with ⟨l1, l2, rfl⟩
  refine ⟨haploColsOrder l1 subs, haploColsOrder l2 subs, ?_⟩
  simp [haploColsOrder]

/-- The Total column is not one of the haplogroup columns. -/
theorem total_not_mem_haploColsOrder {letters : List Char} {subs : List String}
    (hlen : ∀ sc ∈ subs, ∃ a d, sc.data = [a, d]) :
    "Total" ∉ haploColsOrder letters subs := by
  intro hmem
  unfold haploColsOrder at hmem
  rcases List.mem_flatMap.mp hmem with ⟨b, _, hyb⟩
  rcases List.mem_cons.mp hyb with h | h
  · have h5 : ("Total" : String).data.length = 5 := rfl
    rw [h] at h5
    simp [String.singleton] at h5
  · rcases hlen _ (List.mem_of_mem_filter h) with ⟨a, d, hd⟩
    have h5 : ("Total" : String).data.length = 5 := rfl
    rw [hd] at h5
    simp at h5

/-- C8: the output columns are the five metadata columns first in their
fixed order, then the haplogroup columns, then Total last; the haplogroup
part is strictly sorted in string order — which interleaves each basal
letter immediately before its own subclade columns in ascending order and
keeps the basal letters ascending — and each basal letter's block (the
letter column followed by exactly its own subclades, sorted) occurs
contiguously; Total never sits among the haplogroup columns. -/
theorem c8_column_order (rs : List Record) :
    (finalCols rs).take 5 = baseCols
  ∧ (finalCols rs).getLast? = some "Total"
  ∧ (haploColsOrder (basalLetters rs) (subCols rs)).Pairwise (· < ·)
  ∧ (∀ b ∈ basalLetters rs, ∃ pre post,
      haploColsOrder (basalLetters rs) (subCols rs)
        = pre ++ (String.singleton b :: (subCols rs).filter (fun sc => headIs sc b)) ++ post)
  ∧ "Total" ∉ haploColsOrder (basalLetters rs) (subCols rs) := by
  refine ⟨?_, ?_, haploColsOrder_pairwise _ _ (sortedD_pairwise _) (sortedD_pairwise _)
      (fun sc hsc => subCols_shape hsc),
    fun b hb => haploColsOrder_block_decomp hb,
    total_not_mem_haploColsOrder (fun sc hsc => subCols_shape hsc)⟩
  · rw [finalCols, List.append_assoc, show (5 : ℕ) = baseCols.length from rfl,
      List.take_left]
  · rw [finalCols, List.getLast?_concat]

/-- C8 witness: the concrete table with columns A, A1, B. -/
theorem c8_column_order_witness :
    (finalCols rsC8).take 5 = baseCols
  ∧ (∃ pre post, haploColsOrder (basalLetters rsC8) (subCols rsC8)
      = pre ++ (String.singleton 'A'
          :: (subCols rsC8).filter (fun sc => headIs sc 'A')) ++ post) :=
  ⟨(c8_column_order rsC8).1, (c8_column_order rsC8).2.2.2.1 'A' (by decide)⟩

end HaploTables
